import Mathlib

/-!
Verification development for the repository Grumblesaur/fleetcomp.

The repository holds two near-duplicate Python programs, `fleetcomp.py` and
`teamcomp.py`.  Both are shallowly embedded below: Python sets of ships are
modelled as `Finset Ship`, a frozenset of ships owned by a player is modelled
as a `List Ship` (a finite collection together with its iteration order), and
Python dictionaries are modelled as association lists.  Python integers are
modelled as `Int`.

In the Python source the class `Ship` defines a field-based hash but no
equality method, so ship objects compare by object identity.  Every ship
object is created exactly once per (player, name, type) at roster load time,
so on the data the programs actually build, identity equality and equality of
the (name, type, player) field tuple coincide; the value model below compares
ships by that tuple.  The identity semantics itself is modelled separately by
`PyShip` for the claim about asset equality.
-/

/-- The five ship categories of class `ShipType` in both programs. -/
inductive ShipType where
  | SS
  | DD
  | CA
  | BB
  | CV
deriving DecidableEq

/-- Value model of class `Ship`: the (name, type, player) field tuple. -/
structure Ship where
  name : String
  type : ShipType
  player : String
deriving DecidableEq

/-- Model of class `Player`: a participant name and the ships they own.
The Python `frozenset` of ships is modelled as a list, recording one
iteration order; `Player.__init__` builds it from the roster data. -/
structure Player where
  name : String
  ships : List Ship
deriving DecidableEq

/-- Invariant established by `Player.__init__`: every ship a player owns
carries that player as its owner (the constructor bakes the player name
into each `Ship` it creates). -/
def Player.wf (p : Player) : Prop := ∀ s ∈ p.ships, s.player = p.name

/-- The match set of one counted rule: the Python rule dictionary stores,
under the key named by `rtype`, either a collection of ship names or a
collection of ship types. -/
inductive RuleMatch where
  | ships (names : List String)
  | types (tys : List ShipType)
deriving DecidableEq

/-- One counted rule, as repacked by `RestrictionSet.__init__`: the match
set selected by its `rtype` plus the `allowed` ceiling. -/
structure Rule where
  rmatch : RuleMatch
  allowed : Int
deriving DecidableEq

/-- Whether one ship matches a counted rule, following the branch in
`RestrictionSet.is_valid`: by name when the rule type is `ships`, by ship
type when it is `types`. -/
def Rule.matches (rule : Rule) (s : Ship) : Bool :=
  match rule.rmatch with
  | .ships names => decide (s.name ∈ names)
  | .types tys => decide (s.type ∈ tys)

/-- How many ships of a composition match a counted rule: the tally that
`RestrictionSet.is_valid` accumulates in its `Counter`. -/
def ruleCount (rule : Rule) (c : Finset Ship) : Nat :=
  (c.filter (fun s => rule.matches s = true)).card

/-- Model of `itertools.combinations`: all subsequences of the given length,
in the order the Python iterator produces them. -/
def combinations {α : Type} : Nat → List α → List (List α)
  | 0, _ => [[]]
  | _ + 1, [] => []
  | n + 1, x :: xs => ((combinations n xs).map (fun g => x :: g)) ++ combinations (n + 1) xs

namespace Fleetcomp

/-- Model of class `RestrictionSet` of `fleetcomp.py`: the compiled rule
configuration. -/
structure RestrictionSet where
  size_limit : Int
  tier : Int
  banned_ships : List String
  banned_types : List ShipType
  restrictions : List (String × Rule)
deriving DecidableEq

/-- Model of `RestrictionSet.with_team_size`: `copy.deepcopy` followed by an
assignment to `size_limit` is, observably, a record update. -/
def RestrictionSet.with_team_size (r : RestrictionSet) (n : Int) : RestrictionSet :=
  { r with size_limit := n }

/-- Model of `RestrictionSet.is_banned`: the ship name is in the banned ship
list or its type is in the banned type list. -/
def RestrictionSet.is_banned (r : RestrictionSet) (s : Ship) : Bool :=
  decide (s.name ∈ r.banned_ships) || decide (s.type ∈ r.banned_types)

/-- Model of `RestrictionSet.is_valid`.  The Python body returns `False` as
soon as the composition is larger than the size limit or a banned ship is
found while iterating; otherwise it compares the accumulated per-rule
tallies against each `allowed` ceiling.  The `Counter` only holds a key for
a rule once some ship has been iterated, so for the empty composition the
final loop checks nothing: hence the `c.Nonempty` conjunct. -/
def RestrictionSet.is_valid (r : RestrictionSet) (c : Finset Ship) : Bool :=
  if r.size_limit < (c.card : Int) then false
  else if ∃ s ∈ c, r.is_banned s = true then false
  else if c.Nonempty ∧ ∃ nr ∈ r.restrictions, (nr.2.allowed : Int) < (ruleCount nr.2 c : Int) then
    false
  else true

/-- Model of `RestrictionSet.is_full_team`: the composition has exactly
`size_limit` ships. -/
def RestrictionSet.is_full_team (r : RestrictionSet) (c : Finset Ship) : Bool :=
  decide ((c.card : Int) = r.size_limit)

/-- Model of `RestrictionSet.team_compositions`: depth-first backtracking.
If the selected set is already valid and full it is yielded and the branch
stops; otherwise the first entry of the group branches once per owned ship.
The source checks the yield guard before inspecting the group, so the guard
is repeated in both branches of the structural recursion here.  The list
collects the yields of the Python generator in order. -/
def RestrictionSet.team_compositions (r : RestrictionSet) (selected : Finset Ship) :
    List Player → List (Finset Ship)
  | [] => if r.is_valid selected && r.is_full_team selected then [selected] else []
  | p :: rest =>
    if r.is_valid selected && r.is_full_team selected then [selected]
    else p.ships.flatMap (fun s => r.team_compositions (selected ∪ {s}) rest)

/-- Model of class `Team` of `fleetcomp.py`: the loaded players, with one
iteration order fixed. -/
structure Team where
  players : List Player
deriving DecidableEq

/-- Model of `Team.generate_comps`: for every combination of `size_limit`
players, run the backtracking search from the empty selection and
concatenate the yields. -/
def Team.generate_comps (t : Team) (r : RestrictionSet) : List (Finset Ship) :=
  (combinations r.size_limit.toNat t.players).flatMap (fun g => r.team_compositions ∅ g)

/-- The count of participating players: `sum(bool(player) for player in
team.players)` in the `count` procedure, where a player is truthy iff their
ship set is non-empty. -/
def Team.availableCount (t : Team) : Nat :=
  (t.players.filter (fun p => !p.ships.isEmpty)).length

/-- Model of the `ConfigurationError` raised by the `count` procedure,
carrying the data interpolated into its message. -/
structure ConfigurationError where
  required : Int
  available : Nat
deriving DecidableEq

/-- Model of the `count` procedure of `fleetcomp.py` after loading: it
raises `ConfigurationError` when fewer players have available ships than the
team size requires, and otherwise drains the generator and returns its
length. -/
def count (t : Team) (r : RestrictionSet) : Except ConfigurationError Nat :=
  if (t.availableCount : Int) < r.size_limit then
    Except.error ⟨r.size_limit, t.availableCount⟩
  else
    Except.ok (t.generate_comps r).length

end Fleetcomp

namespace Teamcomp

/-- Model of class `RestrictionSet` of `teamcomp.py`: as in `fleetcomp.py`
but without the `tier` field. -/
structure RestrictionSet where
  size_limit : Int
  banned_ships : List String
  banned_types : List ShipType
  restrictions : List (String × Rule)
deriving DecidableEq

/-- Model of `RestrictionSet.is_banned` of `teamcomp.py`. -/
def RestrictionSet.is_banned (r : RestrictionSet) (s : Ship) : Bool :=
  decide (s.name ∈ r.banned_ships) || decide (s.type ∈ r.banned_types)

/-- Model of `RestrictionSet.is_valid` of `teamcomp.py`; the body is
identical to the one in `fleetcomp.py`. -/
def RestrictionSet.is_valid (r : RestrictionSet) (c : Finset Ship) : Bool :=
  if r.size_limit < (c.card : Int) then false
  else if ∃ s ∈ c, r.is_banned s = true then false
  else if c.Nonempty ∧ ∃ nr ∈ r.restrictions, (nr.2.allowed : Int) < (ruleCount nr.2 c : Int) then
    false
  else true

/-- Model of `RestrictionSet.is_full_team` of `teamcomp.py`. -/
def RestrictionSet.is_full_team (r : RestrictionSet) (c : Finset Ship) : Bool :=
  decide ((c.card : Int) = r.size_limit)

/-- Model of `RestrictionSet.team_compositions` of `teamcomp.py`: as in
`fleetcomp.py`, with the two conjuncts of the yield guard written in the
other order. -/
def RestrictionSet.team_compositions (r : RestrictionSet) (selected : Finset Ship) :
    List Player → List (Finset Ship)
  | [] => if r.is_full_team selected && r.is_valid selected then [selected] else []
  | p :: rest =>
    if r.is_full_team selected && r.is_valid selected then [selected]
    else p.ships.flatMap (fun s => r.team_compositions (selected ∪ {s}) rest)

/-- Model of class `Team` of `teamcomp.py`. -/
structure Team where
  players : List Player
deriving DecidableEq

/-- Model of `Team.generate_comps` of `teamcomp.py`: the combination width
is the literal constant 7, not the team size of the restriction set. -/
def Team.generate_comps (t : Team) (r : RestrictionSet) : List (Finset Ship) :=
  (combinations 7 t.players).flatMap (fun g => r.team_compositions ∅ g)

/-- Model of the `count` procedure of `teamcomp.py` after loading: it has no
participating-player check and no error path, it simply drains the generator
and reports its length. -/
def count (t : Team) (r : RestrictionSet) : Nat :=
  (t.generate_comps r).length

end Teamcomp

/-- Identity model of class `Ship` as written in the Python source: the
class defines a hash over the field tuple but no equality method, so two
ship objects compare equal iff they are the same object.  `objId` stands for
the object identity. -/
structure PyShip where
  objId : Nat
  name : String
  type : ShipType
  player : String
deriving DecidableEq

/-- Python equality on ship objects: inherited object identity, since class
`Ship` defines no equality method. -/
def PyShip.pyEq (a b : PyShip) : Bool := a.objId == b.objId

/-- The tuple that the hash method of class `Ship` hashes (the constant
class component dropped): equal tuples give equal hashes. -/
def PyShip.pyHashKey (s : PyShip) : String × ShipType × String :=
  (s.name, s.type, s.player)

/-! ### Spec-side definitions used to state the claims -/

/-- Spec-side manual enumeration for the completeness claim: the full
Cartesian product over the group — every way of choosing one ship per
roster entry, in the iteration order of the group. -/
def allSelections : List Player → List (List Ship)
  | [] => [[]]
  | p :: ps => p.ships.flatMap (fun s => (allSelections ps).map (fun v => s :: v))

/-- Spec-side predicate for the exactness claim: all ships of the
composition have pairwise distinct owners. -/
def distinctOwners (c : Finset Ship) : Prop :=
  ∀ s₁ ∈ c, ∀ s₂ ∈ c, s₁ ≠ s₂ → s₁.player ≠ s₂.player

/-! ### Helper lemmas about the fleetcomp model -/

namespace Fleetcomp

theorem team_compositions_nil (r : RestrictionSet) (selected : Finset Ship) :
    r.team_compositions selected [] =
      if r.is_valid selected && r.is_full_team selected then [selected] else [] := by
  simp [RestrictionSet.team_compositions]

theorem team_compositions_cons (r : RestrictionSet) (selected : Finset Ship)
    (p : Player) (rest : List Player) :
    r.team_compositions selected (p :: rest) =
      if r.is_valid selected && r.is_full_team selected then [selected]
      else p.ships.flatMap (fun s => r.team_compositions (selected ∪ {s}) rest) := by
  simp [RestrictionSet.team_compositions]

/-- Characterization of `is_valid`: the composition is within the size
limit, contains no banned ship, and no counted rule that the final loop
actually checks is exceeded. -/
theorem is_valid_eq_true (r : RestrictionSet) (c : Finset Ship) :
    r.is_valid c = true ↔
      ((c.card : Int) ≤ r.size_limit ∧ (∀ s ∈ c, ¬r.is_banned s = true) ∧
        ¬(c.Nonempty ∧ ∃ nr ∈ r.restrictions,
            (nr.2.allowed : Int) < (ruleCount nr.2 c : Int))) := by
  rw [RestrictionSet.is_valid]
  split_ifs with h1 h2 h3
  · simp only [false_iff]
    rintro ⟨hA, -, -⟩
    omega
  · simp only [false_iff]
    rintro ⟨-, hB, -⟩
    obtain ⟨s, hs, hb⟩ := h2
    exact hB s hs hb
  · simp only [false_iff]
    rintro ⟨-, -, hC⟩
    exact hC h3
  · simp only [true_iff]
    refine ⟨by omega, ?_, h3⟩
    intro s hs hb
    exact h2 ⟨s, hs, hb⟩

theorem is_full_team_eq_true (r : RestrictionSet) (c : Finset Ship) :
    r.is_full_team c = true ↔ (c.card : Int) = r.size_limit := by
  simp [RestrictionSet.is_full_team]

/-- Rearrangement of a union used when a further ship joins the selection. -/
theorem union_insert_left (selected w : Finset Ship) (s : Ship) :
    selected ∪ insert s w = (selected ∪ {s}) ∪ w := by
  ext x
  simp only [Finset.mem_union, Finset.mem_insert, Finset.mem_singleton]
  tauto

/-- Core description of the backtracking search: starting from a selection
that still has room for one ship per remaining entry, the yields are exactly
the Cartesian product selections, merged into the selection, that pass the
valid-and-full yield guard — in product order. -/
theorem team_compositions_eq_filter (r : RestrictionSet) :
    ∀ (group : List Player) (selected : Finset Ship),
      (selected.card : Int) + group.length ≤ r.size_limit →
      r.team_compositions selected group =
        ((allSelections group).map (fun v => selected ∪ v.toFinset)).filter
          (fun c => r.is_valid c && r.is_full_team c) := by
  intro group
  induction group with
  | nil =>
    intro selected _
    rw [team_compositions_nil]
    simp [allSelections, List.filter_cons]
  | cons p ps ih =>
    intro selected hle
    have hlen : (selected.card : Int) + (ps.length + 1) ≤ r.size_limit := by
      simpa [Int.add_comm] using hle
    have hfull : r.is_full_team selected = false := by
      rw [Bool.eq_false_iff, Ne, is_full_team_eq_true]
      omega
    rw [team_compositions_cons, hfull, Bool.and_false, if_neg (by simp)]
    show _ = ((allSelections (p :: ps)).map (fun v => selected ∪ v.toFinset)).filter
      (fun c => r.is_valid c && r.is_full_team c)
    rw [show allSelections (p :: ps)
        = p.ships.flatMap (fun s => (allSelections ps).map (fun v => s :: v)) from rfl]
    rw [List.map_flatMap, List.filter_flatMap]
    refine List.flatMap_congr ?_
    intro s _
    have hcard : ((selected ∪ {s}).card : Int) + ps.length ≤ r.size_limit := by
      have h1 : (selected ∪ {s}).card ≤ selected.card + ({s} : Finset Ship).card :=
        Finset.card_union_le selected {s}
      have h2 : (({s} : Finset Ship).card : Int) = 1 := by simp
      push_cast at h1 ⊢
      omega
    rw [ih (selected ∪ {s}) hcard, List.map_map]
    have hfun : ((fun v => selected ∪ List.toFinset v) ∘ fun v => s :: v)
        = fun v : List Ship => (selected ∪ {s}) ∪ v.toFinset := by
      funext v
      show selected ∪ (s :: v).toFinset = (selected ∪ {s}) ∪ v.toFinset
      rw [List.toFinset_cons, union_insert_left]
    rw [hfun]

/-- Every composition the backtracking search yields was yielded through the
valid-and-full guard. -/
theorem mem_team_compositions_guard (r : RestrictionSet) :
    ∀ (group : List Player) (selected c : Finset Ship),
      c ∈ r.team_compositions selected group →
      r.is_valid c = true ∧ r.is_full_team c = true := by
  intro group
  induction group with
  | nil =>
    intro selected c hc
    rw [team_compositions_nil] at hc
    split at hc
    · rename_i hg
      rw [List.mem_singleton] at hc
      subst hc
      exact Bool.and_eq_true_iff.mp hg
    · simp at hc
  | cons p ps ih =>
    intro selected c hc
    rw [team_compositions_cons] at hc
    split at hc
    · rename_i hg
      rw [List.mem_singleton] at hc
      subst hc
      exact Bool.and_eq_true_iff.mp hg
    · rw [List.mem_flatMap] at hc
      obtain ⟨s, _, hc⟩ := hc
      exact ih (selected ∪ {s}) c hc

end Fleetcomp

/-! ### Lemmas about combinations -/

theorem mem_combinations {α : Type} :
    ∀ (n : Nat) (l g : List α), g ∈ combinations n l ↔ (g.Sublist l ∧ g.length = n) := by
  intro n l
  induction l generalizing n with
  | nil =>
    intro g
    match n with
    | 0 =>
      simp only [combinations, List.mem_singleton, List.sublist_nil]
      constructor
      · rintro rfl
        exact ⟨rfl, rfl⟩
      · rintro ⟨rfl, -⟩
        rfl
    | n + 1 =>
      simp only [combinations, List.not_mem_nil, false_iff, not_and, List.sublist_nil]
      rintro rfl
      simp
  | cons x xs ih =>
    intro g
    match n with
    | 0 =>
      simp only [combinations, List.mem_singleton]
      constructor
      · rintro rfl
        exact ⟨List.nil_sublist _, rfl⟩
      · rintro ⟨-, hlen⟩
        exact List.length_eq_zero.mp hlen
    | n + 1 =>
      simp only [combinations, List.mem_append, List.mem_map]
      constructor
      · rintro (⟨g', hg', rfl⟩ | hg)
        · obtain ⟨hsub, hlen⟩ := (ih n g').mp hg'
          exact ⟨List.Sublist.cons₂ x hsub, by simp [hlen]⟩
        · obtain ⟨hsub, hlen⟩ := (ih (n + 1) g).mp hg
          exact ⟨List.sublist_cons_of_sublist x hsub, hlen⟩
      · rintro ⟨hsub, hlen⟩
        rcases List.sublist_cons_iff.mp hsub with hsub' | ⟨g', rfl, hsub'⟩
        · exact Or.inr ((ih (n + 1) g).mpr ⟨hsub', hlen⟩)
        · refine Or.inl ⟨g', (ih n g').mpr ⟨hsub', ?_⟩, rfl⟩
          simpa using hlen

theorem combinations_eq_nil {α : Type} :
    ∀ (n : Nat) (l : List α), l.length < n → combinations n l = [] := by
  intro n l
  induction l generalizing n with
  | nil =>
    intro h
    match n, h with
    | n + 1, _ => rfl
  | cons x xs ih =>
    intro h
    match n, h with
    | n + 1, h =>
      have h1 : xs.length < n := by simpa using h
      simp [combinations, ih n h1, ih (n + 1) (Nat.lt_succ_of_lt h1)]

theorem combinations_length_self {α : Type} :
    ∀ l : List α, combinations l.length l = [l] := by
  intro l
  induction l with
  | nil => rfl
  | cons x xs ih =>
    show combinations (xs.length + 1) (x :: xs) = [x :: xs]
    simp [combinations, ih, combinations_eq_nil (xs.length + 1) xs (by omega)]

namespace Fleetcomp

/-- The backtracking search only yields sets of ships with pairwise distinct
owners, provided every entry of the group owns only its own ships, the group
has pairwise distinct entry names, and the starting selection respects the
same discipline. -/
theorem team_compositions_distinctOwners (r : RestrictionSet) :
    ∀ (group : List Player) (selected : Finset Ship),
      (∀ p ∈ group, p.wf) → (group.map Player.name).Nodup →
      distinctOwners selected → (∀ s ∈ selected, s.player ∉ group.map Player.name) →
      ∀ c ∈ r.team_compositions selected group, distinctOwners c := by
  intro group
  induction group with
  | nil =>
    intro selected _ _ hd _ c hc
    rw [team_compositions_nil] at hc
    split at hc
    · rw [List.mem_singleton] at hc
      subst hc
      exact hd
    · simp at hc
  | cons p ps ih =>
    intro selected hwf hnd hd hnot c hc
    rw [team_compositions_cons] at hc
    split at hc
    · rw [List.mem_singleton] at hc
      subst hc
      exact hd
    · rw [List.mem_flatMap] at hc
      obtain ⟨s, hs, hc⟩ := hc
      have hsp : s.player = p.name := hwf p (by simp) s hs
      have hhead : p.name ∉ ps.map Player.name := by
        rw [List.map_cons, List.nodup_cons] at hnd
        exact hnd.1
      refine ih (selected ∪ {s}) (fun q hq => hwf q (by simp [hq])) ?_ ?_ ?_ c hc
      · rw [List.map_cons, List.nodup_cons] at hnd
        exact hnd.2
      · intro s₁ h₁ s₂ h₂ hne
        rw [Finset.mem_union, Finset.mem_singleton] at h₁ h₂
        rcases h₁ with h₁ | rfl
        · rcases h₂ with h₂ | rfl
          · exact hd s₁ h₁ s₂ h₂ hne
          · have : s₁.player ∉ (p :: ps).map Player.name := hnot s₁ h₁
            rw [hsp]
            intro heq
            exact this (by simp [heq])
        · rcases h₂ with h₂ | rfl
          · have : s₂.player ∉ (p :: ps).map Player.name := hnot s₂ h₂
            rw [hsp]
            intro heq
            exact this (by simp [← heq])
          · exact absurd rfl hne
      · intro u hu
        rw [Finset.mem_union, Finset.mem_singleton] at hu
        rcases hu with hu | rfl
        · have := hnot u hu
          intro hmem
          exact this (by simp [hmem])
        · rw [hsp]
          exact hhead

/-- Validity is antitone in the ban lists: with size limit and counted rules
unchanged, enlarging what counts as banned can only invalidate. -/
theorem is_valid_mono (r r' : RestrictionSet)
    (hsize : r'.size_limit = r.size_limit) (hres : r'.restrictions = r.restrictions)
    (hban : ∀ s : Ship, r.is_banned s = true → r'.is_banned s = true)
    (c : Finset Ship) (h : r'.is_valid c = true) : r.is_valid c = true := by
  rw [is_valid_eq_true] at h ⊢
  obtain ⟨hA, hB, hC⟩ := h
  refine ⟨by omega, ?_, ?_⟩
  · intro s hs hb
    exact hB s hs (hban s hb)
  · rw [hres] at hC
    exact hC

end Fleetcomp

namespace Fleetcomp

/-- Spec-side operation for the ban monotonicity claim: add one name to the
banned ship names, keeping every other rule field identical. -/
def addBannedShip (r : RestrictionSet) (x : String) : RestrictionSet :=
  { r with banned_ships := x :: r.banned_ships }

/-- Spec-side operation for the ban monotonicity claim: add one category to
the banned ship types, keeping every other rule field identical. -/
def addBannedType (r : RestrictionSet) (y : ShipType) : RestrictionSet :=
  { r with banned_types := y :: r.banned_types }

/-- Enumerating under a rule set with more bans (same size limit, same
counted rules) never yields more compositions. -/
theorem generate_comps_length_mono (t : Team) (r r' : RestrictionSet)
    (hsize : r'.size_limit = r.size_limit) (hres : r'.restrictions = r.restrictions)
    (hban : ∀ s : Ship, r.is_banned s = true → r'.is_banned s = true)
    (hpos : 0 ≤ r.size_limit) :
    (t.generate_comps r').length ≤ (t.generate_comps r).length := by
  rw [Team.generate_comps, Team.generate_comps, hsize, List.length_flatMap,
    List.length_flatMap]
  refine List.sum_le_sum ?_
  intro g hg
  obtain ⟨-, hlen⟩ := (mem_combinations r.size_limit.toNat t.players g).mp hg
  have hleni : (g.length : Int) = r.size_limit := by
    rw [hlen]
    exact Int.toNat_of_nonneg hpos
  have hbound : ((∅ : Finset Ship).card : Int) + g.length ≤ r.size_limit := by
    simp [hleni]
  have hbound' : ((∅ : Finset Ship).card : Int) + g.length ≤ r'.size_limit := by
    rw [hsize]
    exact hbound
  show (r'.team_compositions ∅ g).length ≤ (r.team_compositions ∅ g).length
  rw [team_compositions_eq_filter r g ∅ hbound, team_compositions_eq_filter r' g ∅ hbound']
  exact (List.monotone_filter_right _ (fun c hc => by
    rw [Bool.and_eq_true_iff] at hc ⊢
    refine ⟨is_valid_mono r r' hsize hres hban c hc.1, ?_⟩
    rw [is_full_team_eq_true] at hc ⊢
    omega)).length_le

/-! #### State-passing model of the `RestrictionSet` constructor

`RestrictionSet.__init__` receives the parsed rule configuration as a Python
dictionary and calls `pop` on it, so the dictionary the caller passed is
mutated.  The dictionary is modelled as an association list and the
constructor as a function returning both the constructed value and the state
of the dictionary after the call. -/

/-- One value of the parsed configuration dictionary: the `Banned` entry, a
numeric entry (`TeamSize`, `Tier`), or one counted rule entry. -/
inductive ConfigVal where
  | banned (ships : List String) (types : List ShipType)
  | num (n : Int)
  | rule (m : RuleMatch) (allowed : Int)
deriving DecidableEq

/-- The parsed configuration dictionary, keys to values. -/
abbrev RulesDict := List (String × ConfigVal)

/-- Model of `dict.pop(key, default)`: the looked-up value (if any) and the
dictionary without that key. -/
def popKey (d : RulesDict) (k : String) : Option ConfigVal × RulesDict :=
  (d.lookup k, d.filter (fun kv => !(kv.1 == k)))

/-- Reading the `Banned` entry: a missing or ill-typed entry defaults to no
bans, as `rules.pop('Banned', {})` does. -/
def asBanned : Option ConfigVal → List String × List ShipType
  | some (ConfigVal.banned ships types) => (ships, types)
  | _ => ([], [])

/-- Reading a numeric entry with the given default, as
`rules.pop('TeamSize', team_size)` and `rules.pop('Tier', tier)` do. -/
def asNum (d : Int) : Option ConfigVal → Int
  | some (ConfigVal.num n) => n
  | _ => d

/-- The loop at the end of `RestrictionSet.__init__`: every remaining entry
is repacked as one counted rule. -/
def parseRules (d : RulesDict) : List (String × Rule) :=
  d.filterMap (fun kv =>
    match kv.2 with
    | ConfigVal.rule m allowed => some (kv.1, ⟨m, allowed⟩)
    | _ => none)

/-- State-passing model of `RestrictionSet.__init__(rules, team_size, tier)`:
returns the constructed restriction set together with the rules dictionary as
the caller sees it after the call. -/
def restrictionSetInit (rules : RulesDict) (team_size tier : Int) :
    RestrictionSet × RulesDict :=
  let bansPop := popKey rules "Banned"
  let sizePop := popKey bansPop.2 "TeamSize"
  let tierPop := popKey sizePop.2 "Tier"
  let bans := asBanned bansPop.1
  (⟨asNum team_size sizePop.1, asNum tier tierPop.1, bans.1, bans.2, parseRules tierPop.2⟩,
    tierPop.2)

theorem lookup_filter_ne_self (d : RulesDict) (k : String) :
    (d.filter (fun kv => !(kv.1 == k))).lookup k = none := by
  induction d with
  | nil => rfl
  | cons kv d ih =>
    obtain ⟨a, b⟩ := kv
    by_cases h : a = k
    · simpa [List.filter_cons, h] using ih
    · have hbeq : (k == a) = false := beq_eq_false_iff_ne.mpr (fun e => h e.symm)
      simpa [List.filter_cons, h, List.lookup, hbeq] using ih

theorem lookup_filter_none (d : RulesDict) (k : String) (q : String × ConfigVal → Bool)
    (h : d.lookup k = none) : (d.filter q).lookup k = none := by
  induction d with
  | nil => rfl
  | cons kv d ih =>
    rw [List.lookup] at h
    by_cases hk : (k == kv.1) = true
    · rw [hk] at h
      simp at h
    · rw [Bool.eq_false_iff.mpr hk] at h
      rw [List.filter_cons]
      split
      · rw [List.lookup, Bool.eq_false_iff.mpr hk]
        exact ih h
      · exact ih h

end Fleetcomp

/-! ### Concrete data used by witnesses and counterexamples

The roster and rule set of the concrete scenario in the spec: players A, B,
C owning one ship each, a team size of 2 and one counted rule capping the SS
category at 1. -/

def shA : Ship := ⟨"Alpha", ShipType.SS, "A"⟩

def shB : Ship := ⟨"Bravo", ShipType.DD, "B"⟩

def shC : Ship := ⟨"Charlie", ShipType.SS, "C"⟩

def pA : Player := ⟨"A", [shA]⟩

def pB : Player := ⟨"B", [shB]⟩

def pC : Player := ⟨"C", [shC]⟩

def rNoSS : Fleetcomp.RestrictionSet :=
  ⟨2, 10, [], [], [("no double SS", ⟨RuleMatch.types [ShipType.SS], 1⟩)]⟩

def rZero : Fleetcomp.RestrictionSet := ⟨0, 10, [], [], []⟩

def exTeam : Fleetcomp.Team := ⟨[pA, pB, pC]⟩

def exTeam2 : Fleetcomp.Team := ⟨[pA, pB]⟩

def tcR4 : Teamcomp.RestrictionSet := ⟨4, [], [], []⟩

def tcR1 : Teamcomp.RestrictionSet := ⟨1, [], [], []⟩

def tcTeam3 : Teamcomp.Team := ⟨[pA, pB, pC]⟩

def tcTeam1 : Teamcomp.Team := ⟨[pA]⟩

def rulesEx : Fleetcomp.RulesDict :=
  [("Banned", Fleetcomp.ConfigVal.banned ["Alpha"] []),
   ("TeamSize", Fleetcomp.ConfigVal.num 4),
   ("no double SS", Fleetcomp.ConfigVal.rule (RuleMatch.types [ShipType.SS]) 1)]

/-! ### The claims -/

/-- C1: completeness of the enumerator.  For every group of roster entries
of size exactly the team size and every rule set, the multiset of
compositions yielded by `team_compositions` from the empty selection equals,
order aside, the Cartesian product over the group — one ship per entry —
filtered to the selections that `is_valid` accepts and that have cardinality
`team_size`. -/
theorem c1_enumerator_completeness (r : Fleetcomp.RestrictionSet) (group : List Player)
    (h : (group.length : Int) = r.size_limit) :
    Multiset.ofList (r.team_compositions ∅ group) =
      Multiset.ofList (((allSelections group).map List.toFinset).filter
        (fun c => r.is_valid c && decide ((c.card : Int) = r.size_limit))) := by
  have hb : ((∅ : Finset Ship).card : Int) + group.length ≤ r.size_limit := by simp [h]
  rw [Fleetcomp.team_compositions_eq_filter r group ∅ hb]
  congr 1

/-- Witness for C1 at the concrete two-entry group A, C of the spec
scenario (both sides are empty: the only selection pairs two SS ships). -/
theorem c1_enumerator_completeness_witness :
    (([pA, pC].length : Int) = rNoSS.size_limit) ∧
      Multiset.ofList (rNoSS.team_compositions ∅ [pA, pC]) =
        Multiset.ofList (((allSelections [pA, pC]).map List.toFinset).filter
          (fun c => rNoSS.is_valid c && decide ((c.card : Int) = rNoSS.size_limit))) :=
  ⟨by decide, c1_enumerator_completeness rNoSS [pA, pC] (by decide)⟩

/-- C2: exactness of the enumerator output.  Every composition yielded by
`generate_comps` has cardinality `team_size`, pairwise distinct owners, and
passes `is_valid` — for any roster whose entries own only their own ships
and carry pairwise distinct names (both invariants are established by the
loaders). -/
theorem c2_enumerator_exactness (t : Fleetcomp.Team) (r : Fleetcomp.RestrictionSet)
    (c : Finset Ship) (hwf : ∀ p ∈ t.players, p.wf)
    (hnd : (t.players.map Player.name).Nodup)
    (hc : c ∈ t.generate_comps r) :
    (c.card : Int) = r.size_limit ∧ distinctOwners c ∧ r.is_valid c = true := by
  rw [Fleetcomp.Team.generate_comps, List.mem_flatMap] at hc
  obtain ⟨g, hg, hc⟩ := hc
  have hsub := ((mem_combinations r.size_limit.toNat t.players g).mp hg).1
  have hguard := Fleetcomp.mem_team_compositions_guard r g ∅ c hc
  refine ⟨(Fleetcomp.is_full_team_eq_true r c).mp hguard.2, ?_, hguard.1⟩
  refine Fleetcomp.team_compositions_distinctOwners r g ∅
    (fun p hp => hwf p (List.Sublist.mem hp hsub))
    (List.Nodup.sublist (hsub.map Player.name) hnd) ?_ ?_ c hc
  · intro s₁ h₁
    exact absurd h₁ (Finset.not_mem_empty s₁)
  · intro s hs
    exact absurd hs (Finset.not_mem_empty s)

/-- Witness for C2 at the composition of ships Alpha and Bravo yielded on
the concrete scenario roster. -/
theorem c2_enumerator_exactness_witness :
    (({shA, shB} : Finset Ship).card : Int) = rNoSS.size_limit ∧
      distinctOwners {shA, shB} ∧ rNoSS.is_valid {shA, shB} = true :=
  c2_enumerator_exactness exTeam rNoSS {shA, shB}
    (by simp only [Player.wf]; decide) (by decide) (by decide)

/-- C3 counterexample: in `teamcomp.py`, with team size 4 and only 3
participating roster entries, no configuration error is reported — the
enumeration returns the empty sequence and the counting entry point
returns 0 (its type has no error outcome at all). -/
theorem c3_teamcomp_no_error :
    Teamcomp.Team.generate_comps tcTeam3 tcR4 = [] ∧ Teamcomp.count tcTeam3 tcR4 = 0 := by
  constructor <;> rfl

/-- C3 (amended): in `fleetcomp.py`, whenever the team size exceeds the
number of players with available ships, the counting entry point reports a
`ConfigurationError` instead of producing a count — the check runs before
the search. -/
theorem c3_count_configuration_error (t : Fleetcomp.Team) (r : Fleetcomp.RestrictionSet)
    (h : (t.availableCount : Int) < r.size_limit) :
    Fleetcomp.count t r = Except.error ⟨r.size_limit, t.availableCount⟩ := by
  rw [Fleetcomp.count, if_pos h]

/-- Witness for the amended C3: team size overridden to 4 on the three
player roster of the concrete scenario. -/
theorem c3_count_configuration_error_witness :
    ((exTeam.availableCount : Int) < (rNoSS.with_team_size 4).size_limit) ∧
      Fleetcomp.count exTeam (rNoSS.with_team_size 4) =
        Except.error ⟨(rNoSS.with_team_size 4).size_limit, exTeam.availableCount⟩ :=
  ⟨by decide, c3_count_configuration_error exTeam (rNoSS.with_team_size 4) (by decide)⟩

/-- C4 counterexample: in `teamcomp.py`, with team size 1 and a one-entry
roster the claim requires the single backtracking pass over that entry,
which yields one composition — but the enumeration uses the constant
combination width 7 and yields nothing. -/
theorem c4_teamcomp_width_not_team_size :
    Teamcomp.Team.generate_comps tcTeam1 tcR1 = [] ∧
      Teamcomp.RestrictionSet.team_compositions tcR1 ∅ tcTeam1.players = [{shA}] := by
  refine ⟨rfl, ?_⟩
  decide

/-- C4 (amended): in `fleetcomp.py`, the enumeration operation iterates over
exactly the combinations of `team_size` roster entries — membership in the
iterated groups is equivalent to being a length `team_size` subsequence of
the roster — and when the roster has exactly `team_size` entries it
degenerates to a single backtracking pass over the whole roster.  In
`teamcomp.py` the combination width is the constant 7 instead of the team
size. -/
theorem c4_mode_dispatch (t : Fleetcomp.Team) (r : Fleetcomp.RestrictionSet)
    (h : 0 ≤ r.size_limit) :
    (t.generate_comps r =
      (combinations r.size_limit.toNat t.players).flatMap (fun g => r.team_compositions ∅ g)) ∧
    (∀ g : List Player, g ∈ combinations r.size_limit.toNat t.players ↔
      (g.Sublist t.players ∧ (g.length : Int) = r.size_limit)) ∧
    ((t.players.length : Int) = r.size_limit →
      t.generate_comps r = r.team_compositions ∅ t.players) := by
  refine ⟨rfl, ?_, ?_⟩
  · intro g
    rw [mem_combinations]
    constructor
    · rintro ⟨h1, h2⟩
      exact ⟨h1, by omega⟩
    · rintro ⟨h1, h2⟩
      exact ⟨h1, by omega⟩
  · intro hlen
    have ht : r.size_limit.toNat = t.players.length := by omega
    rw [Fleetcomp.Team.generate_comps, ht, combinations_length_self]
    simp

/-- Witness for the amended C4: on a two-entry roster with team size 2 the
operation equals the single backtracking pass. -/
theorem c4_mode_dispatch_witness :
    exTeam2.generate_comps rNoSS = rNoSS.team_compositions ∅ exTeam2.players :=
  (c4_mode_dispatch exTeam2 rNoSS (by decide)).2.2 (by decide)

/-- C5: the validator contract.  For rule sets respecting the data model
invariant that every `allowed` ceiling is non-negative, `is_valid` returns
false exactly when the composition exceeds the team size, contains a banned
asset, or exceeds some counted rule ceiling; and `is_banned` holds exactly
on assets whose name or category is banned. -/
theorem c5_validator_contract (r : Fleetcomp.RestrictionSet) (c : Finset Ship)
    (hpos : ∀ nr ∈ r.restrictions, 0 ≤ nr.2.allowed) :
    (r.is_valid c = false ↔
      (r.size_limit < (c.card : Int) ∨
        (∃ s ∈ c, s.name ∈ r.banned_ships ∨ s.type ∈ r.banned_types) ∨
        (∃ nr ∈ r.restrictions, (nr.2.allowed : Int) < (ruleCount nr.2 c : Int)))) ∧
    (∀ s : Ship, r.is_banned s = true ↔
      (s.name ∈ r.banned_ships ∨ s.type ∈ r.banned_types)) := by
  have hban : ∀ s : Ship, r.is_banned s = true ↔
      (s.name ∈ r.banned_ships ∨ s.type ∈ r.banned_types) := by
    intro s
    simp [Fleetcomp.RestrictionSet.is_banned]
  have hne : (∃ nr ∈ r.restrictions, (nr.2.allowed : Int) < (ruleCount nr.2 c : Int)) →
      c.Nonempty := by
    rintro ⟨nr, hmem, hlt⟩
    rcases Finset.eq_empty_or_nonempty c with rfl | hcne
    · have h0 := hpos nr hmem
      rw [show ruleCount nr.2 (∅ : Finset Ship) = 0 from by simp [ruleCount]] at hlt
      omega
    · exact hcne
  refine ⟨?_, hban⟩
  rw [Bool.eq_false_iff, Ne, Fleetcomp.is_valid_eq_true]
  constructor
  · intro h
    by_cases h1 : r.size_limit < (c.card : Int)
    · exact Or.inl h1
    by_cases h2 : ∃ s ∈ c, r.is_banned s = true
    · obtain ⟨s, hs, hb⟩ := h2
      exact Or.inr (Or.inl ⟨s, hs, (hban s).mp hb⟩)
    by_cases h3 : ∃ nr ∈ r.restrictions, (nr.2.allowed : Int) < (ruleCount nr.2 c : Int)
    · exact Or.inr (Or.inr h3)
    · exact absurd ⟨by omega, fun s hs hb => h2 ⟨s, hs, hb⟩, fun hcon => h3 hcon.2⟩ h
  · rintro (h | ⟨s, hs, hb⟩ | hE) ⟨hA, hB, hC⟩
    · omega
    · exact hB s hs ((hban s).mpr hb)
    · exact hC ⟨hne hE, hE⟩

/-- Witness for C5 at the two-SS composition of the concrete scenario,
which the counted rule invalidates. -/
theorem c5_validator_contract_witness :
    (∀ nr ∈ rNoSS.restrictions, 0 ≤ nr.2.allowed) ∧
      ((rNoSS.is_valid {shA, shC} = false ↔
        (rNoSS.size_limit < (({shA, shC} : Finset Ship).card : Int) ∨
          (∃ s ∈ ({shA, shC} : Finset Ship),
            s.name ∈ rNoSS.banned_ships ∨ s.type ∈ rNoSS.banned_types) ∨
          (∃ nr ∈ rNoSS.restrictions,
            (nr.2.allowed : Int) < (ruleCount nr.2 {shA, shC} : Int)))) ∧
      (∀ s : Ship, rNoSS.is_banned s = true ↔
        (s.name ∈ rNoSS.banned_ships ∨ s.type ∈ rNoSS.banned_types))) :=
  ⟨by decide, c5_validator_contract rNoSS {shA, shC} (by decide)⟩

/-- C6: `with_team_size` is a pure derivation — the result has the given
team size and agrees with the original on every other field.  The original
is untouched: the model of deepcopy-then-assign is a record update on an
immutable value, so no call can modify its argument. -/
theorem c6_with_team_size_pure (r : Fleetcomp.RestrictionSet) (n : Int) :
    (r.with_team_size n).size_limit = n ∧
    (r.with_team_size n).tier = r.tier ∧
    (r.with_team_size n).banned_ships = r.banned_ships ∧
    (r.with_team_size n).banned_types = r.banned_types ∧
    (r.with_team_size n).restrictions = r.restrictions :=
  ⟨rfl, rfl, rfl, rfl, rfl⟩

/-- C7: ban monotonicity.  Adding one name to the banned ship names, or one
category to the banned ship types, while keeping every other rule field
identical, never increases the number of compositions the enumeration
yields, and every composition valid under the enlarged ban set is valid
under the original. -/
theorem c7_ban_monotonicity (t : Fleetcomp.Team) (r : Fleetcomp.RestrictionSet)
    (x : String) (y : ShipType) (hpos : 0 ≤ r.size_limit) :
    ((t.generate_comps (Fleetcomp.addBannedShip r x)).length ≤
        (t.generate_comps r).length ∧
      ∀ c : Finset Ship,
        (Fleetcomp.addBannedShip r x).is_valid c = true → r.is_valid c = true) ∧
    ((t.generate_comps (Fleetcomp.addBannedType r y)).length ≤
        (t.generate_comps r).length ∧
      ∀ c : Finset Ship,
        (Fleetcomp.addBannedType r y).is_valid c = true → r.is_valid c = true) := by
  have hbx : ∀ s : Ship,
      r.is_banned s = true → (Fleetcomp.addBannedShip r x).is_banned s = true := by
    intro s hb
    simp only [Fleetcomp.RestrictionSet.is_banned, Fleetcomp.addBannedShip, Bool.or_eq_true,
      decide_eq_true_eq, List.mem_cons] at hb ⊢
    tauto
  have hby : ∀ s : Ship,
      r.is_banned s = true → (Fleetcomp.addBannedType r y).is_banned s = true := by
    intro s hb
    simp only [Fleetcomp.RestrictionSet.is_banned, Fleetcomp.addBannedType, Bool.or_eq_true,
      decide_eq_true_eq, List.mem_cons] at hb ⊢
    tauto
  exact ⟨⟨Fleetcomp.generate_comps_length_mono t r (Fleetcomp.addBannedShip r x) rfl rfl hbx hpos,
      fun c => Fleetcomp.is_valid_mono r (Fleetcomp.addBannedShip r x) rfl rfl hbx c⟩,
    ⟨Fleetcomp.generate_comps_length_mono t r (Fleetcomp.addBannedType r y) rfl rfl hby hpos,
      fun c => Fleetcomp.is_valid_mono r (Fleetcomp.addBannedType r y) rfl rfl hby c⟩⟩

/-- Witness for C7: banning the name Alpha on the concrete scenario roster
does not increase the composition count. -/
theorem c7_ban_monotonicity_witness :
    (exTeam.generate_comps (Fleetcomp.addBannedShip rNoSS "Alpha")).length ≤
      (exTeam.generate_comps rNoSS).length :=
  (c7_ban_monotonicity exTeam rNoSS "Alpha" ShipType.DD (by decide)).1.1

/-- C8, evaluated at the failing input: two separately constructed ship
objects with identical name, category and owner hash equal, yet are not
equal — class `Ship` defines a hash over the field tuple but no equality
method, so comparison falls back to object identity. -/
theorem c8_identity_equality_eval :
    PyShip.pyEq ⟨0, "Alpha", ShipType.SS, "A"⟩ ⟨1, "Alpha", ShipType.SS, "A"⟩ = false ∧
      PyShip.pyHashKey ⟨0, "Alpha", ShipType.SS, "A"⟩ =
        PyShip.pyHashKey ⟨1, "Alpha", ShipType.SS, "A"⟩ :=
  ⟨rfl, rfl⟩

/-- C9: constructing a `RestrictionSet` consumes the rules mapping passed to
it — afterwards the caller dictionary no longer holds the `Banned`,
`TeamSize` or `Tier` entries, and (whenever the first construction had any
banned ship names) constructing again from that mutated dictionary yields a
different restriction set. -/
theorem c9_constructor_mutates_rules (rules : Fleetcomp.RulesDict) (ts tier : Int)
    (hB : (Fleetcomp.restrictionSetInit rules ts tier).1.banned_ships ≠ []) :
    ((Fleetcomp.restrictionSetInit rules ts tier).2.lookup "Banned" = none ∧
      (Fleetcomp.restrictionSetInit rules ts tier).2.lookup "TeamSize" = none ∧
      (Fleetcomp.restrictionSetInit rules ts tier).2.lookup "Tier" = none) ∧
    (Fleetcomp.restrictionSetInit
        (Fleetcomp.restrictionSetInit rules ts tier).2 ts tier).1 ≠
      (Fleetcomp.restrictionSetInit rules ts tier).1 := by
  have hres2 : (Fleetcomp.restrictionSetInit rules ts tier).2
      = ((rules.filter (fun kv => !(kv.1 == "Banned"))).filter
          (fun kv => !(kv.1 == "TeamSize"))).filter (fun kv => !(kv.1 == "Tier")) := rfl
  have hBan : (Fleetcomp.restrictionSetInit rules ts tier).2.lookup "Banned" = none := by
    rw [hres2]
    exact Fleetcomp.lookup_filter_none _ _ _
      (Fleetcomp.lookup_filter_none _ _ _
        (Fleetcomp.lookup_filter_ne_self rules "Banned"))
  refine ⟨⟨hBan, ?_, ?_⟩, ?_⟩
  · rw [hres2]
    exact Fleetcomp.lookup_filter_none _ _ _
      (Fleetcomp.lookup_filter_ne_self (rules.filter (fun kv => !(kv.1 == "Banned")))
        "TeamSize")
  · rw [hres2]
    exact Fleetcomp.lookup_filter_ne_self _ "Tier"
  · intro heq
    apply hB
    have h2 : (Fleetcomp.restrictionSetInit
        (Fleetcomp.restrictionSetInit rules ts tier).2 ts tier).1.banned_ships = [] := by
      show (Fleetcomp.asBanned
        ((Fleetcomp.restrictionSetInit rules ts tier).2.lookup "Banned")).1 = []
      rw [hBan]
      rfl
    rw [← heq]
    exact h2

/-- Witness for C9 at a concrete configuration holding a ban list, a team
size and one counted rule. -/
theorem c9_constructor_mutates_rules_witness :
    ((Fleetcomp.restrictionSetInit rulesEx 7 10).1.banned_ships ≠ []) ∧
      (((Fleetcomp.restrictionSetInit rulesEx 7 10).2.lookup "Banned" = none ∧
        (Fleetcomp.restrictionSetInit rulesEx 7 10).2.lookup "TeamSize" = none ∧
        (Fleetcomp.restrictionSetInit rulesEx 7 10).2.lookup "Tier" = none) ∧
      (Fleetcomp.restrictionSetInit
          (Fleetcomp.restrictionSetInit rulesEx 7 10).2 7 10).1 ≠
        (Fleetcomp.restrictionSetInit rulesEx 7 10).1) :=
  ⟨by decide, c9_constructor_mutates_rules rulesEx 7 10 (by decide)⟩

/-- C10: for every rule set with a non-negative team size the empty
composition is valid, and when the team size is zero the backtracking
search immediately yields the empty composition for any group. -/
theorem c10_empty_composition_valid :
    (∀ r : Fleetcomp.RestrictionSet, 0 ≤ r.size_limit → r.is_valid ∅ = true) ∧
    (∀ (r : Fleetcomp.RestrictionSet) (group : List Player), r.size_limit = 0 →
      r.team_compositions ∅ group = [∅]) := by
  have hvalid : ∀ r : Fleetcomp.RestrictionSet, 0 ≤ r.size_limit → r.is_valid ∅ = true := by
    intro r h
    rw [Fleetcomp.is_valid_eq_true]
    refine ⟨by simpa using h, by simp, ?_⟩
    rintro ⟨hne, -⟩
    exact Finset.not_nonempty_empty hne
  refine ⟨hvalid, ?_⟩
  intro r group h
  have hguard : (r.is_valid ∅ && r.is_full_team ∅) = true := by
    rw [Bool.and_eq_true_iff]
    refine ⟨hvalid r (by omega), ?_⟩
    rw [Fleetcomp.is_full_team_eq_true]
    simp [h]
  cases group with
  | nil => rw [Fleetcomp.team_compositions_nil, if_pos hguard]
  | cons p ps => rw [Fleetcomp.team_compositions_cons, if_pos hguard]

/-- Witness for C10: the scenario rule set accepts the empty composition,
and with team size zero the search yields the empty composition at once on
a non-empty group. -/
theorem c10_empty_composition_valid_witness :
    rNoSS.is_valid ∅ = true ∧ rZero.team_compositions ∅ [pA] = [∅] :=
  ⟨c10_empty_composition_valid.1 rNoSS (by decide),
    c10_empty_composition_valid.2 rZero [pA] (by decide)⟩
